import Mathlib

/-!
Verification of the network discovery engine of the homelab-inventory
backend (backend/routes/discovery.py).  The Python module is shallowly
embedded below: pure helpers become Lean functions, the operating-system
interactions (DNS lookups, the ping subprocess) become an explicit `World`
oracle, and the Flask handler `run_discovery` becomes a function from the
parsed JSON payload and the world to either a validation error or a
discovery result.  Machine-level details: Python integers are `Nat`
(addresses are unbounded but kept in range by the parsers), the probe
timeout is carried in integer milliseconds (the source default 1.5 s is
exactly representable, so `int(timeout * 1000)` is the identity on this
representation), and the round-trip-time is carried as the matched decimal
token (the source converts it with `float`, which succeeds exactly when the
token has at least one digit and at most one dot; no arithmetic is ever
performed on the value).
-/

namespace Discovery

/-- Characters stripped by Python `str.strip()` and matched by the regex
class `\s`, restricted to ASCII (ping output and discovery inputs are
ASCII). -/
def isPySpace (c : Char) : Bool :=
  c == ' ' || c == '\t' || c == '\n' || c == '\r' || c == '\x0b' || c == '\x0c'

/-- Model of Python `str.strip()`: drop leading and trailing whitespace. -/
def pyStrip (s : String) : String :=
  ⟨((s.data.dropWhile isPySpace).reverse.dropWhile isPySpace).reverse⟩

/-- Model of Python slicing `s[:n]`: the first `n` characters. -/
def pyTake (n : Nat) (s : String) : String :=
  ⟨s.data.take n⟩

/-- Separator class of the regex `[,\s]+` used to split a string-typed
`targets` field. -/
def isSepChar (c : Char) : Bool :=
  c == ',' || isPySpace c

/-- Worker for `re.split` with a separator-run pattern, processed from the
right: the boolean records whether the remaining input started with a
separator, so that a maximal separator run contributes exactly one split
point. -/
def splitRunsAux : List Char → Bool × List String
  | [] => (false, [""])
  | c :: rest =>
    let r := splitRunsAux rest
    if isSepChar c then
      if r.1 then (true, r.2) else (true, "" :: r.2)
    else
      match r.2 with
      | t :: ts => (false, (⟨c :: t.data⟩ : String) :: ts)
      | [] => (false, [⟨[c]⟩])

/-- Model of `re.split(r'[,\s]+', s)`: tokens between maximal runs of
commas/whitespace (boundary runs contribute empty tokens, as in Python). -/
def splitRuns (s : String) : List String :=
  (splitRunsAux s.data).2

/-- Split on a single separator character, model of both `str.split(sep)`
and the splitting done inside the `ipaddress` parsers ("a..b" gives three
parts, boundary separators give empty parts). -/
def splitCharAux (sep : Char) : List Char → List (List Char)
  | [] => [[]]
  | c :: rest =>
    let r := splitCharAux sep rest
    if c = sep then [] :: r
    else
      match r with
      | t :: ts => (c :: t) :: ts
      | [] => [[c]]

def pySplitChar (sep : Char) (s : String) : List String :=
  (splitCharAux sep s.data).map (fun l => ⟨l⟩)

def isAsciiDigit (c : Char) : Bool :=
  '0' ≤ c && c ≤ '9'

def digitVal (c : Char) : Nat := c.toNat - '0'.toNat

def digitsToNat (l : List Char) : Nat :=
  l.foldl (fun acc c => acc * 10 + digitVal c) 0

/-- Model of the IPv4 octet parser of Python `ipaddress`: one to three
ASCII digits, no leading zero unless the octet is exactly "0", value at
most 255. -/
def parseOctet (s : String) : Option Nat :=
  let cs := s.data
  if cs.length = 0 then none
  else if 3 < cs.length then none
  else if ¬ (cs.all isAsciiDigit) then none
  else if 1 < cs.length ∧ cs.head? = some '0' then none
  else
    let v := digitsToNat cs
    if v ≤ 255 then some v else none

/-- Model of `ipaddress.IPv4Address` string parsing: exactly four
dot-separated octets, combined big-endian. -/
def parseV4 (s : String) : Option Nat :=
  match pySplitChar '.' s with
  | [a, b, c, d] =>
    match parseOctet a, parseOctet b, parseOctet c, parseOctet d with
    | some x, some y, some z, some w => some (((x * 256 + y) * 256 + z) * 256 + w)
    | _, _, _, _ => none
  | _ => none

def isHexDigit (c : Char) : Bool :=
  isAsciiDigit c || ('a' ≤ c && c ≤ 'f') || ('A' ≤ c && c ≤ 'F')

def hexVal (c : Char) : Nat :=
  if isAsciiDigit c then c.toNat - '0'.toNat
  else if 'a' ≤ c && c ≤ 'f' then c.toNat - 'a'.toNat + 10
  else c.toNat - 'A'.toNat + 10

/-- One IPv6 group: one to four hexadecimal digits. -/
def parseHextet (s : String) : Option Nat :=
  let cs := s.data
  if cs.length = 0 ∨ 4 < cs.length then none
  else if ¬ (cs.all isHexDigit) then none
  else some (cs.foldl (fun acc c => acc * 16 + hexVal c) 0)

def foldHextets (gs : List Nat) : Nat :=
  gs.foldl (fun acc g => acc * 65536 + g) 0

/-- Model of `ipaddress.IPv6Address` string parsing, covering the full
eight-group form and a single `::` compression (the model leaves out the
embedded-IPv4 suffix and zone-index forms, which the discovery claims never
exercise). -/
def parseV6 (s : String) : Option Nat :=
  let parts := pySplitChar ':' s
  -- Handle the doubled empty part produced by a leading or trailing "::".
  let dropLead : Option (List String) :=
    match parts with
    | "" :: "" :: rest => some ("" :: rest)
    | "" :: _ => none
    | _ => some parts
  match dropLead with
  | none => none
  | some parts1 =>
    let dropTrail : Option (List String) :=
      match parts1.reverse with
      | "" :: "" :: rest => some (("" :: rest).reverse)
      | "" :: _ :: _ => none
      | _ => some parts1
    match dropTrail with
    | none => none
    | some parts2 =>
      if parts2.count "" = 0 then
        -- full form: exactly eight groups
        match parts2.mapM parseHextet with
        | some gs => if gs.length = 8 then some (foldHextets gs) else none
        | none => none
      else if parts2.count "" = 1 then
        let left := parts2.takeWhile (fun p => p ≠ "")
        let right := (parts2.drop (left.length + 1))
        match left.mapM parseHextet, right.mapM parseHextet with
        | some ls, some rs =>
          if ls.length + rs.length ≤ 7 then
            some (foldHextets (ls ++ List.replicate (8 - ls.length - rs.length) 0 ++ rs))
          else none
        | _, _ => none
      else none

/-- An IP address as carried by the embedding: the family (4 or 6) plus the
numeric value.  Values are kept inside the family range by the parsers. -/
structure IPAddr where
  version : Nat
  value : Nat
deriving DecidableEq, Repr

/-- Model of `ipaddress.ip_address` applied to a string: try IPv4 first,
then IPv6 (exactly the stdlib order). -/
def ip_address (s : String) : Option IPAddr :=
  match parseV4 s with
  | some v => some ⟨4, v⟩
  | none =>
    match parseV6 s with
    | some v => some ⟨6, v⟩
    | none => none

/-- Model of `ipaddress.ip_address` applied to a Python int: values below
2^32 become IPv4 addresses, larger values IPv6 (exactly the stdlib order of
constructor attempts). -/
def ipFromInt (v : Nat) : IPAddr :=
  if v < 2 ^ 32 then ⟨4, v⟩ else ⟨6, v⟩

def v4ToString (v : Nat) : String :=
  toString (v / 16777216 % 256) ++ "." ++ toString (v / 65536 % 256) ++ "." ++
    toString (v / 256 % 256) ++ "." ++ toString (v % 256)

def natToHex (n : Nat) : String :=
  ⟨Nat.toDigits 16 n⟩

def v6Hextets (v : Nat) : List Nat :=
  (List.range 8).map (fun i => v / 2 ^ (16 * (7 - i)) % 65536)

def zeroRunLen (hs : List Nat) (i : Nat) : Nat :=
  ((hs.drop i).takeWhile (fun h => h = 0)).length

/-- Leftmost longest run of at least two zero groups, as compressed by
Python when rendering an IPv6 address. -/
def bestZeroRun (hs : List Nat) : Option (Nat × Nat) :=
  let cands := (List.range hs.length).filterMap (fun i =>
    if (i = 0 ∨ hs.getD (i - 1) 1 ≠ 0) ∧ hs.getD i 1 = 0 then
      let l := zeroRunLen hs i
      if 2 ≤ l then some (i, l) else none
    else none)
  cands.foldl (fun best c =>
    match best with
    | none => some c
    | some b => if b.2 < c.2 then some c else some b) none

/-- Model of `str(IPv6Address)`: hextets in lowercase hex with the leftmost
longest zero run of length at least two compressed to `::`. -/
def v6ToString (v : Nat) : String :=
  let hs := v6Hextets v
  match bestZeroRun hs with
  | none => String.intercalate ":" (hs.map natToHex)
  | some (st, ln) =>
    let pre := (hs.take st).map natToHex
    let post := (hs.drop (st + ln)).map natToHex
    let parts := pre ++ [""] ++ post
    let parts := if st + ln = 8 then parts ++ [""] else parts
    let parts := if st = 0 then "" :: parts else parts
    String.intercalate ":" parts

/-- Model of `str(ip_obj)` for either family. -/
def ipToString (a : IPAddr) : String :=
  if a.version = 4 then v4ToString a.value else v6ToString a.value

/-- Address width of a family. -/
def addrBits (version : Nat) : Nat :=
  if version = 4 then 32 else 128

/-- A parsed network: family, network address (host bits cleared) and
prefix length. -/
structure IPNetwork where
  version : Nat
  netaddr : Nat
  prefixLen : Nat
deriving DecidableEq, Repr

/-- Prefix-length parser of `ipaddress`: a nonempty all-digit string whose
value is at most the address width. -/
def parsePrefixLen (bits : Nat) (s : String) : Option Nat :=
  if s.data ≠ [] ∧ s.data.all isAsciiDigit then
    let v := digitsToNat s.data
    if v ≤ bits then some v else none
  else none

/-- Model of `ipaddress.ip_network(s, strict=False)`: a bare address gets a
full-length prefix; an address/prefix pair has its host bits masked off
rather than rejected (that is what `strict=False` does). -/
def ip_network_nonstrict (s : String) : Option IPNetwork :=
  match pySplitChar '/' s with
  | [a] =>
    match ip_address a with
    | some addr => some ⟨addr.version, addr.value, addrBits addr.version⟩
    | none => none
  | [a, p] =>
    match ip_address a with
    | some addr =>
      match parsePrefixLen (addrBits addr.version) p with
      | some plen =>
        let host := 2 ^ (addrBits addr.version - plen)
        some ⟨addr.version, addr.value - addr.value % host, plen⟩
      | none => none
    | none => none
  | _ => none

/-- Model of `network.hosts()` (Python 3.8+ semantics): IPv4 excludes the
network and broadcast addresses except at /31 (both kept) and /32 (the
single address); IPv6 excludes only the network address except at /127 and
/128. -/
def hostsList (n : IPNetwork) : List Nat :=
  let bits := addrBits n.version
  let size := 2 ^ (bits - n.prefixLen)
  if n.prefixLen = bits then [n.netaddr]
  else if n.prefixLen + 1 = bits then [n.netaddr, n.netaddr + 1]
  else if n.version = 4 then (List.range (size - 2)).map (fun i => n.netaddr + 1 + i)
  else (List.range (size - 1)).map (fun i => n.netaddr + 1 + i)

/-- Stdlib error text raised by `ipaddress.ip_network` on an unparsable
input (the model omits the `repr` quoting around the input). -/
def netErrMsg (s : String) : String :=
  s ++ " does not appear to be an IPv4 or IPv6 network"

/-- Stdlib error text raised by `ipaddress.ip_address` on an unparsable
input (the model omits the `repr` quoting around the input). -/
def addrErrMsg (s : String) : String :=
  s ++ " does not appear to be an IPv4 or IPv6 address"

/-- Embedding of `_expand_cidr`: parse the CIDR non-strictly, list its
hosts, and fall back to the bare network address when the host list is
empty. -/
def _expand_cidr (s : String) : Except String (List String) :=
  match ip_network_nonstrict s with
  | none => .error (netErrMsg s)
  | some n =>
    let hosts := hostsList n
    let hosts := if hosts.isEmpty then [n.netaddr] else hosts
    .ok (hosts.map (fun v => ipToString ⟨n.version, v⟩))

/-- Model of `s.split('-', 1)` guarded by `'-' in s`: the parts before and
after the first dash, or `none` when no dash occurs. -/
def splitDash (s : String) : Option (String × String) :=
  let p := s.data.span (fun c => ¬ (c = '-'))
  match p.2 with
  | [] => none
  | _ :: rest => some (⟨p.1⟩, ⟨rest⟩)

/-- The ascending integer run of a dashed range, rebuilt into addresses the
way the source does: each integer goes through `ipaddress.ip_address(int)`
(so the family of each element is decided by the magnitude alone, not the
family of the endpoints). -/
def rangeAddrs (a b : IPAddr) : List IPAddr :=
  (List.range (b.value - a.value + 1)).map (fun off => ipFromInt (a.value + off))

/-- Embedding of `_expand_range`: require a dash, parse both trimmed sides
as addresses, require equal families and an ascending pair, then render
every integer from start to end inclusive. -/
def _expand_range (s : String) : Except String (List String) :=
  match splitDash s with
  | none => .error "Range must be in start-end format"
  | some (ls, rs) =>
    let startStr := pyStrip ls
    let endStr := pyStrip rs
    match ip_address startStr with
    | none => .error (addrErrMsg startStr)
    | some a =>
      match ip_address endStr with
      | none => .error (addrErrMsg endStr)
      | some b =>
        if a.version ≠ b.version then
          .error "Range start and end must be the same IP version"
        else if b.value < a.value then
          .error "Range end must be greater than or equal to start"
        else
          .ok ((rangeAddrs a b).map ipToString)

/-- ASCII lowercasing, model of `str.lower()` on platform names. -/
def pyLower (s : String) : String :=
  ⟨s.data.map Char.toLower⟩

/-- Guardrail constant of the source module. -/
def MAX_TARGETS : Nat := 256

/-- Per-probe timeout of the source module (1.5 seconds), carried in
milliseconds. -/
def DEFAULT_TIMEOUT_MS : Nat := 1500

/-- Model of Python `round()` (half to even) applied to a nonnegative
millisecond quantity read as seconds. -/
def msRoundHalfEven (ms : Nat) : Nat :=
  let q := ms / 1000
  let r := ms % 1000
  if r < 500 then q
  else if 500 < r then q + 1
  else if q % 2 = 0 then q else q + 1

/-- Embedding of `_build_ping_command`: pick the count and timeout flags by
platform and express the timeout in milliseconds on Windows and macOS and
in whole seconds (at least 1) elsewhere. -/
def _build_ping_command (systemName : String) (target : String) (timeoutMs : Nat) : List String :=
  let system := pyLower systemName
  let count_flag := if system ≠ "windows" then "-c" else "-n"
  let timeout_flag := if system ≠ "windows" then "-W" else "-w"
  let timeout_value :=
    if system = "windows" ∨ system = "darwin" then toString timeoutMs
    else toString (max 1 (msRoundHalfEven timeoutMs))
  ["ping", count_flag, "1", timeout_flag, timeout_value, target]

/-- One `subprocess.run` invocation as seen from the module: the argument
vector and the hard wall-clock ceiling passed as the `timeout` keyword. -/
structure ProcCall where
  cmd : List String
  timeoutMs : Nat
deriving DecidableEq, Repr

/-- Outcome of the subprocess call: a completed process with its exit
status and captured streams, `subprocess.TimeoutExpired`,
`FileNotFoundError` (ping binary absent), or any other exception. -/
inductive ProcOutcome where
  | completed (returncode : Int) (stdout stderr : String)
  | timedOut
  | toolMissing
  | raised (msg : String)
deriving DecidableEq, Repr

/-- Result triple of `_ping_target`.  The round-trip time is carried as the
decimal token matched in the output (see the module docstring). -/
structure PingResult where
  reachable : Bool
  rtt : Option String
  error : Option String
deriving DecidableEq, Repr

/-- Match attempt of the regex `time[=<]([\d\.]+)\s*ms` anchored at the
head of the character list; the greedy classes are disjoint from what
follows them, so maximal munch is exact. -/
def rttMatchAt (l : List Char) : Option String :=
  match l with
  | 't' :: 'i' :: 'm' :: 'e' :: c :: rest =>
    if c = '=' ∨ c = '<' then
      let grp := rest.takeWhile (fun ch => isAsciiDigit ch || ch == '.')
      if grp.isEmpty then none
      else
        match (rest.drop grp.length).dropWhile isPySpace with
        | 'm' :: 's' :: _ => some ⟨grp⟩
        | _ => none
    else none
  | _ => none

/-- Model of `re.search`: try the pattern at each position, leftmost first. -/
def rttSearch : List Char → Option String
  | [] => none
  | c :: rest =>
    match rttMatchAt (c :: rest) with
    | some g => some g
    | none => rttSearch rest

/-- Python `float()` succeeds on a nonempty digits-and-dots token exactly
when it has at least one digit and at most one dot. -/
def floatTokenValid (s : String) : Bool :=
  s.data.count '.' ≤ 1 && s.data.any isAsciiDigit

/-- The round-trip-time extraction of `_ping_target`: the first match of
the time token, kept only when `float()` would accept it. -/
def rttOfOutput (output : String) : Option String :=
  match rttSearch output.data with
  | some g => if floatTokenValid g then some g else none
  | none => none

/-- Pure tail of `_ping_target`: classify the process outcome.  A completed
process is reachable exactly when its exit status is zero; on failure the
error detail is the stripped combined output truncated to 200 characters,
or "No response" when that is empty.  The three exception branches of the
source map to the remaining constructors. -/
def pingFromOutcome (o : ProcOutcome) : PingResult :=
  match o with
  | .completed rc out err =>
    let output := out ++ err
    let reachable := decide (rc = 0)
    let st := pyStrip output
    ⟨reachable, rttOfOutput output,
      if reachable then none else some (if st = "" then "No response" else pyTake 200 st)⟩
  | .timedOut => ⟨false, none, some "Ping timed out"⟩
  | .toolMissing => ⟨false, none, some "Ping utility not available on server"⟩
  | .raised msg => ⟨false, none, some msg⟩

/-- The outside world as the module sees it: the platform name, forward DNS
(`socket.getaddrinfo` restricted to IPv4, first result or failure), reverse
DNS (`socket.gethostbyaddr`, any failure collapsed to `none`), and the ping
subprocess. -/
structure World where
  system : String
  dns : String → Option String
  rdns : String → Option String
  ping : ProcCall → ProcOutcome

/-- The subprocess call `_ping_target` makes: the platform-aware command
with the default timeout, wrapped with a hard ceiling of timeout plus one
second. -/
def pingCall (systemName target : String) : ProcCall :=
  ⟨_build_ping_command systemName target DEFAULT_TIMEOUT_MS, DEFAULT_TIMEOUT_MS + 1000⟩

/-- Embedding of `_ping_target`. -/
def _ping_target (w : World) (target : String) : PingResult :=
  pingFromOutcome (w.ping (pingCall w.system target))

/-- Embedding of `_resolve_ip`: a literal IP is canonicalized and returned
without any lookup; otherwise the IPv4-restricted DNS lookup decides. -/
def _resolve_ip (w : World) (target : String) : Option String :=
  match ip_address target with
  | some a => some (ipToString a)
  | none => w.dns target

/-- Embedding of `_reverse_dns`. -/
def _reverse_dns (w : World) (ipStr : String) : Option String :=
  w.rdns ipStr

/-- One per-target result row of the discovery response. -/
structure Entry where
  input : String
  ip : Option String
  hostname : Option String
  reachable : Bool
  rtt : Option String
  error : Option String
deriving DecidableEq, Repr

/-- The entry produced when forward resolution fails. -/
def unresolvedEntry (target : String) : Entry :=
  ⟨target, none, none, false, none, some "Unable to resolve hostname or IP"⟩

/-- Embedding of `_discover_target`: resolution failure short-circuits with
the unresolved entry (no probe, no reverse lookup); otherwise probe then
reverse-resolve. -/
def _discover_target (w : World) (target : String) : Entry :=
  match _resolve_ip w target with
  | none => unresolvedEntry target
  | some ip =>
    let p := _ping_target w ip
    let hostname := _reverse_dns w ip
    ⟨target, some ip, hostname, p.reachable, p.rtt,
      if p.reachable then none else p.error⟩

/-- An element of a list-typed `targets` field: JSON null, a string, or any
other JSON value (number, object, ...). -/
inductive PyItem where
  | none
  | str (s : String)
  | other
deriving DecidableEq, Repr

/-- The `targets` field of the payload: absent/null, a string, a list, or
any other JSON value (whose only observable property here is truthiness). -/
inductive TargetsField where
  | none
  | str (s : String)
  | list (items : List PyItem)
  | other (truthy : Bool)
deriving DecidableEq, Repr

/-- Python truthiness of the `targets` field (`if not raw_targets`). -/
def pyFalsy : TargetsField → Bool
  | .none => true
  | .str s => s == ""
  | .list l => l.isEmpty
  | .other t => !t

/-- The string kept from one list element: `None` is skipped, a string is
stripped and kept when nonblank, everything else is skipped because it
matches no `isinstance` branch. -/
def strExtract : PyItem → Option String
  | .str s => if pyStrip s = "" then none else some (pyStrip s)
  | _ => none

/-- Embedding of `_normalize_targets`. -/
def _normalize_targets (raw : TargetsField) : List String :=
  if pyFalsy raw then []
  else
    match raw with
    | .str s => ((splitRuns s).map pyStrip).filter (fun c => c ≠ "")
    | .list items => items.filterMap strExtract
    | _ => []

/-- The parsed JSON payload of a discovery request.  The `range` and `cidr`
fields are modelled as optional strings, matching the documented payload;
the surrounding HTTP/JSON framing is outside the module. -/
structure Payload where
  targets : TargetsField
  range : Option String
  cidr : Option String

/-- Python truthiness filter on an optional string field (`if range_value:`). -/
def truthyStr : Option String → Option String
  | some s => if s = "" then none else some s
  | none => none

/-- Field-scoped validation error, the argument the handler passes to
`validation_error_response`. -/
structure VError where
  fieldName : String
  messages : List String
deriving DecidableEq, Repr

/-- The cidr half of target expansion: run after the range half so a range
failure wins, exactly like the two sequential try blocks of the source. -/
def expanded_cidr_step (base : List String) (cd : Option String) : Except VError (List String) :=
  match truthyStr cd with
  | some c =>
    match _expand_cidr (pyStrip c) with
    | .error e => .error ⟨"cidr", [e]⟩
    | .ok l => .ok (base ++ l)
  | none => .ok base

/-- Target assembly of `run_discovery` before deduplication: normalized
literal targets, then the expanded range, then the expanded CIDR, each
expansion failure reported as a field-scoped validation error. -/
def expanded_targets (p : Payload) : Except VError (List String) :=
  let base := _normalize_targets p.targets
  match truthyStr p.range with
  | some r =>
    match _expand_range (pyStrip r) with
    | .error e => .error ⟨"range", [e]⟩
    | .ok l => expanded_cidr_step (base ++ l) p.cidr
  | none => expanded_cidr_step base p.cidr

/-- Order-preserving deduplication worker (the `seen` set is a list here;
only membership is used). -/
def py_dedup_go (seen : List String) : List String → List String
  | [] => []
  | t :: rest =>
    if t ∈ seen then py_dedup_go seen rest
    else t :: py_dedup_go (t :: seen) rest

/-- De-duplicate while preserving first occurrence. -/
def py_dedup (l : List String) : List String :=
  py_dedup_go [] l

/-- Validation phase of `run_discovery`: expansion, deduplication, and the
two guardrails, all before any world interaction. -/
def compute_targets (p : Payload) : Except VError (List String) :=
  match expanded_targets p with
  | .error e => .error e
  | .ok ts =>
    let uts := py_dedup ts
    if uts.isEmpty then
      .error ⟨"targets", ["Provide at least one IP/hostname or range"]⟩
    else if MAX_TARGETS < uts.length then
      .error ⟨"targets",
        ["Too many targets requested (" ++ toString uts.length ++ "). Limit is "
          ++ toString MAX_TARGETS ++ "."]⟩
    else .ok uts

/-- The summary block of a successful response. -/
structure Summary where
  requested : Nat
  reachableCount : Nat
deriving DecidableEq, Repr

/-- A successful discovery response body. -/
structure DiscoveryResult where
  summary : Summary
  results : List Entry
deriving DecidableEq, Repr

/-- Embedding of the `run_discovery` handler after JSON parsing: validate
and expand, then probe each deduplicated target in order and summarize. -/
def run_discovery (p : Payload) (w : World) : Except VError DiscoveryResult :=
  match compute_targets p with
  | .error e => .error e
  | .ok uts =>
    let results := uts.map (_discover_target w)
    .ok ⟨⟨uts.length, (results.filter (fun r => r.reachable)).length⟩, results⟩

/-- A concrete world where every lookup fails and every probe times out;
used to instantiate world-quantified statements. -/
def constWorld : World :=
  ⟨"Linux", fun _ => none, fun _ => none, fun _ => ProcOutcome.timedOut⟩

theorem discover_target_input (w : World) (t : String) :
    (_discover_target w t).input = t := by
  unfold _discover_target
  cases h : _resolve_ip w t <;> simp [h, unresolvedEntry]

theorem ip_address_version {s : String} {a : IPAddr}
    (h : ip_address s = some a) : a.version = 4 ∨ a.version = 6 := by
  unfold ip_address at h
  cases h4 : parseV4 s with
  | some v =>
    rw [h4] at h
    injection h with h
    rw [← h]
    exact Or.inl rfl
  | none =>
    rw [h4] at h
    cases h6 : parseV6 s with
    | some v =>
      rw [h6] at h
      injection h with h
      rw [← h]
      exact Or.inr rfl
    | none =>
      rw [h6] at h
      exact absurd h (by simp)

theorem parsePrefixLen_le {bits : Nat} {s : String} {p : Nat}
    (h : parsePrefixLen bits s = some p) : p ≤ bits := by
  unfold parsePrefixLen at h
  split at h
  · by_cases hv : digitsToNat s.data ≤ bits
    · simp only [hv, if_true, Option.some.injEq] at h
      omega
    · simp [hv] at h
  · exact absurd h (by simp)

theorem ip_network_version {s : String} {n : IPNetwork}
    (h : ip_network_nonstrict s = some n) :
    (n.version = 4 ∨ n.version = 6) ∧ n.prefixLen ≤ addrBits n.version := by
  unfold ip_network_nonstrict at h
  split at h
  · split at h
    · rename_i addr ha
      injection h with h
      rw [← h]
      exact ⟨ip_address_version ha, le_refl _⟩
    · exact absurd h (by simp)
  · split at h
    · rename_i addr ha
      split at h
      · rename_i plen hp
        injection h with h
        rw [← h]
        exact ⟨ip_address_version ha, parsePrefixLen_le hp⟩
      · exact absurd h (by simp)
    · exact absurd h (by simp)
  · exact absurd h (by simp)

theorem hostsList_ne_nil {n : IPNetwork}
    (hv : n.version = 4 ∨ n.version = 6)
    (hp : n.prefixLen ≤ addrBits n.version) : hostsList n ≠ [] := by
  unfold hostsList
  by_cases h1 : n.prefixLen = addrBits n.version
  · simp [h1]
  · rw [if_neg h1]
    by_cases h2 : n.prefixLen + 1 = addrBits n.version
    · simp [h2]
    · rw [if_neg h2]
      have hbits : addrBits n.version = 32 ∨ addrBits n.version = 128 := by
        rcases hv with hv | hv <;> simp [hv, addrBits]
      have hple : n.prefixLen + 2 ≤ addrBits n.version := by omega
      have hpow : 4 ≤ 2 ^ (addrBits n.version - n.prefixLen) := by
        calc (4 : Nat) = 2 ^ 2 := by norm_num
        _ ≤ 2 ^ (addrBits n.version - n.prefixLen) :=
          Nat.pow_le_pow_right (by norm_num) (by omega)
      by_cases h4 : n.version = 4
      · rw [if_pos h4]
        apply List.ne_nil_of_length_pos
        simp only [List.length_map, List.length_range]
        omega
      · rw [if_neg h4]
        apply List.ne_nil_of_length_pos
        simp only [List.length_map, List.length_range]
        omega

theorem expand_cidr_of_parse {s : String} {n : IPNetwork}
    (h : ip_network_nonstrict s = some n) :
    _expand_cidr s = .ok ((hostsList n).map (fun v => ipToString ⟨n.version, v⟩)) := by
  have hb := ip_network_version h
  have hne := hostsList_ne_nil hb.1 hb.2
  unfold _expand_cidr
  rw [h]
  have hempty : (hostsList n).isEmpty = false := by
    cases hl : hostsList n with
    | nil => exact absurd hl hne
    | cons a l => rfl
  simp only [hempty, Bool.false_eq_true, if_false]

theorem py_dedup_go_mem : ∀ (l seen : List String) (x : String),
    x ∈ py_dedup_go seen l → x ∈ l ∧ x ∉ seen := by
  intro l
  induction l with
  | nil => intro seen x hx; exact absurd hx (by simp [py_dedup_go])
  | cons t rest ih =>
    intro seen x hx
    unfold py_dedup_go at hx
    by_cases ht : t ∈ seen
    · rw [if_pos ht] at hx
      obtain ⟨h1, h2⟩ := ih seen x hx
      exact ⟨List.mem_cons_of_mem _ h1, h2⟩
    · rw [if_neg ht] at hx
      rcases List.mem_cons.mp hx with hx | hx
      · exact ⟨hx ▸ List.mem_cons_self _ _, hx ▸ ht⟩
      · obtain ⟨h1, h2⟩ := ih _ x hx
        exact ⟨List.mem_cons_of_mem _ h1, fun hs => h2 (List.mem_cons_of_mem _ hs)⟩

theorem py_dedup_go_mem_of : ∀ (l seen : List String) (x : String),
    x ∈ l → x ∉ seen → x ∈ py_dedup_go seen l := by
  intro l
  induction l with
  | nil => intro seen x hx _; exact absurd hx (by simp)
  | cons t rest ih =>
    intro seen x hx hs
    unfold py_dedup_go
    by_cases ht : t ∈ seen
    · rw [if_pos ht]
      rcases List.mem_cons.mp hx with hx | hx
      · exact absurd (hx ▸ ht) hs
      · exact ih seen x hx hs
    · rw [if_neg ht]
      by_cases hxt : x = t
      · exact hxt ▸ List.mem_cons_self _ _
      · rcases List.mem_cons.mp hx with hx | hx
        · exact absurd hx hxt
        · refine List.mem_cons_of_mem _ (ih _ x hx ?_)
          intro hmem
          rcases List.mem_cons.mp hmem with h | h
          · exact hxt h
          · exact hs h

theorem py_dedup_go_nodup : ∀ (l seen : List String), (py_dedup_go seen l).Nodup := by
  intro l
  induction l with
  | nil => intro seen; simp [py_dedup_go]
  | cons t rest ih =>
    intro seen
    unfold py_dedup_go
    by_cases ht : t ∈ seen
    · rw [if_pos ht]; exact ih seen
    · rw [if_neg ht]
      refine List.nodup_cons.mpr ⟨?_, ih _⟩
      intro hmem
      exact (py_dedup_go_mem _ _ _ hmem).2 (List.mem_cons_self _ _)

theorem py_dedup_nodup (l : List String) : (py_dedup l).Nodup :=
  py_dedup_go_nodup l []

theorem mem_py_dedup {l : List String} {x : String} :
    x ∈ py_dedup l ↔ x ∈ l :=
  ⟨fun h => (py_dedup_go_mem l [] x h).1,
   fun h => py_dedup_go_mem_of l [] x h (by simp)⟩

theorem py_dedup_go_of_nodup : ∀ (l seen : List String),
    l.Nodup → (∀ x ∈ l, x ∉ seen) → py_dedup_go seen l = l := by
  intro l
  induction l with
  | nil => intros; rfl
  | cons t rest ih =>
    intro seen hnd hdisj
    unfold py_dedup_go
    rw [if_neg (hdisj t (List.mem_cons_self _ _))]
    congr 1
    refine ih _ (List.Nodup.of_cons hnd) ?_
    intro x hx hmem
    rcases List.mem_cons.mp hmem with h | h
    · exact (List.nodup_cons.mp hnd).1 (h ▸ hx)
    · exact hdisj x (List.mem_cons_of_mem _ hx) h

theorem py_dedup_of_nodup {l : List String} (h : l.Nodup) : py_dedup l = l :=
  py_dedup_go_of_nodup l [] h (by simp)

/-- Inversion of the guardrail phase: a successful validation yields the
deduplicated expansion, nonempty and within the cap. -/
theorem compute_targets_ok {p : Payload} {u : List String}
    (h : compute_targets p = .ok u) :
    ∃ ts, expanded_targets p = .ok ts ∧ u = py_dedup ts ∧
      u ≠ [] ∧ u.length ≤ MAX_TARGETS := by
  unfold compute_targets at h
  split at h
  · exact absurd h (by simp)
  · rename_i ts hts
    by_cases h1 : (py_dedup ts).isEmpty
    · simp only [h1, if_true] at h
      exact absurd h (by simp)
    · rw [if_neg (by simp [h1])] at h
      by_cases h2 : MAX_TARGETS < (py_dedup ts).length
      · rw [if_pos h2] at h
        exact absurd h (by simp)
      · rw [if_neg h2] at h
        injection h with h
        refine ⟨ts, hts, h.symm, ?_, ?_⟩
        · rw [← h]
          intro hnil
          rw [hnil] at h1
          exact h1 rfl
        · rw [← h]
          omega

/-- Inversion of the handler: a successful run is the probe map over the
validated target list with its summary. -/
theorem run_discovery_ok {p : Payload} {w : World} {res : DiscoveryResult}
    (h : run_discovery p w = .ok res) :
    ∃ u, compute_targets p = .ok u ∧
      res = ⟨⟨u.length,
        ((u.map (_discover_target w)).filter (fun r => r.reachable)).length⟩,
        u.map (_discover_target w)⟩ := by
  unfold run_discovery at h
  split at h
  · exact absurd h (by simp)
  · rename_i u hu
    injection h with h
    exact ⟨u, hu, h.symm⟩

/-- Recognizer for string-typed list elements. -/
def isStrItem : PyItem → Bool
  | .str _ => true
  | _ => false

theorem normalize_list_eq (items : List PyItem) :
    _normalize_targets (.list items) = items.filterMap strExtract := by
  cases items with
  | nil => rfl
  | cons i rest => rfl

theorem filterMap_strExtract_filter (items : List PyItem) :
    (items.filter isStrItem).filterMap strExtract = items.filterMap strExtract := by
  induction items with
  | nil => rfl
  | cons i rest ih =>
    cases i with
    | str s => simp [List.filter_cons, List.filterMap_cons, isStrItem, ih]
    | none => simp [List.filter_cons, List.filterMap_cons, isStrItem, strExtract, ih]
    | other => simp [List.filter_cons, List.filterMap_cons, isStrItem, strExtract, ih]

theorem expanded_targets_congr {tf tf' : TargetsField} (rng cd : Option String)
    (h : _normalize_targets tf = _normalize_targets tf') :
    expanded_targets ⟨tf, rng, cd⟩ = expanded_targets ⟨tf', rng, cd⟩ := by
  unfold expanded_targets
  simp only [h]

theorem compute_targets_congr {p p' : Payload}
    (h : expanded_targets p = expanded_targets p') :
    compute_targets p = compute_targets p' := by
  unfold compute_targets
  rw [h]

theorem run_discovery_congr {p p' : Payload} (w : World)
    (h : compute_targets p = compute_targets p') :
    run_discovery p w = run_discovery p' w := by
  unfold run_discovery
  rw [h]

theorem pyStrip_replicate_a (n : Nat) :
    pyStrip ⟨List.replicate (n + 1) 'a'⟩ = ⟨List.replicate (n + 1) 'a'⟩ := by
  have hdw : (List.replicate (n + 1) 'a').dropWhile isPySpace
      = List.replicate (n + 1) 'a' := by
    rw [List.replicate_succ, List.dropWhile_cons]
    have : isPySpace 'a' = false := rfl
    simp [this]
  unfold pyStrip
  simp only [String.data]
  rw [hdw, List.reverse_replicate, hdw, List.reverse_replicate]

theorem replicate_a_ne_empty (n : Nat) :
    (⟨List.replicate (n + 1) 'a'⟩ : String) ≠ "" := by
  intro h
  have := congrArg String.data h
  simp [List.replicate_succ] at this

theorem replicate_a_injective :
    Function.Injective (fun i : Nat => (⟨List.replicate (i + 1) 'a'⟩ : String)) := by
  intro i j h
  have hd := congrArg String.data h
  have hl := congrArg List.length hd
  simp only [String.data, List.length_replicate] at hl
  omega

/-- C1 (code bug): the dashed range "::1-::3" passes every validation of
`_expand_range` (both sides are IPv6, ascending), yet the expansion rebuilds
each integer through the family-agnostic integer constructor, so the result
is three IPv4 strings and contains neither endpoint. -/
theorem expand_range_v6_drops_family :
    _expand_range "::1-::3" = .ok ["0.0.0.1", "0.0.0.2", "0.0.0.3"] ∧
    ("::1" ∈ ["0.0.0.1", "0.0.0.2", "0.0.0.3"] → False) ∧
    ("::3" ∈ ["0.0.0.1", "0.0.0.2", "0.0.0.3"] → False) :=
  ⟨by rfl, by decide, by decide⟩

/-- C6 (counterexample): for a failed probe whose combined output is the
nonempty string " ", the claimed error detail (the output truncated to 200
characters) is " ", but the code strips the output first and reports
"No response". -/
theorem ping_error_strip_counterexample :
    pingFromOutcome (.completed 1 " " "") = ⟨false, none, some "No response"⟩ ∧
    ((" " : String) ++ "") = " " ∧
    (" " : String) ≠ "" ∧
    pyTake 200 " " = " " ∧
    (" " : String) ≠ "No response" :=
  ⟨rfl, rfl, by decide, rfl, by decide⟩

/-- C6 (amended): a completed probe is reachable exactly when the exit
status is zero, independent of the output text; when not reachable the
error detail is the captured stdout+stderr stripped of surrounding
whitespace and truncated to at most 200 characters, or "No response" when
that stripped output is empty; a missing ping tool and a process timeout
yield their specific error strings with reachable false. -/
theorem ping_outcome_classification :
    (∀ (rc : Int) (out err : String),
      pingFromOutcome (.completed rc out err) =
        ⟨decide (rc = 0), rttOfOutput (out ++ err),
          if rc = 0 then none
          else some (if pyStrip (out ++ err) = "" then "No response"
                     else pyTake 200 (pyStrip (out ++ err)))⟩) ∧
    (∀ (rc : Int) (o1 e1 o2 e2 : String),
      (pingFromOutcome (.completed rc o1 e1)).reachable =
        (pingFromOutcome (.completed rc o2 e2)).reachable) ∧
    (∀ (rc : Int) (out err : String),
      ((pingFromOutcome (.completed rc out err)).error.getD "").length ≤ 200) ∧
    pingFromOutcome .timedOut = ⟨false, none, some "Ping timed out"⟩ ∧
    pingFromOutcome .toolMissing =
      ⟨false, none, some "Ping utility not available on server"⟩ := by
  refine ⟨?_, ?_, ?_, rfl, rfl⟩
  · intro rc out err
    unfold pingFromOutcome
    by_cases h : rc = 0 <;> simp [h]
  · intro rc o1 e1 o2 e2
    simp [pingFromOutcome]
  · intro rc out err
    by_cases h : rc = 0
    · have he : pingFromOutcome (.completed rc out err) =
          ⟨true, rttOfOutput (out ++ err), none⟩ := by
        unfold pingFromOutcome; simp [h]
      rw [he]
      simp
    · by_cases hst : pyStrip (out ++ err) = ""
      · have he : pingFromOutcome (.completed rc out err) =
            ⟨false, rttOfOutput (out ++ err), some "No response"⟩ := by
          unfold pingFromOutcome; simp [h, hst]
        rw [he]
        show ("No response" : String).length ≤ 200
        decide
      · have he : pingFromOutcome (.completed rc out err) =
            ⟨false, rttOfOutput (out ++ err),
              some (pyTake 200 (pyStrip (out ++ err)))⟩ := by
          unfold pingFromOutcome; simp [h, hst]
        rw [he]
        simp only [Option.getD_some]
        show ((pyStrip (out ++ err)).data.take 200).length ≤ 200
        exact List.length_take_le 200 _

/-- C8: the round-trip-time parse is independent of the exit-status
classification: on a nonzero exit status whose output carries a
"time=23.4 ms" token, the probe result is unreachable with the error
populated, and the round-trip time is still extracted. -/
theorem rtt_parse_independent_of_exit_status :
    pingFromOutcome
        (.completed 1 "64 bytes from 8.8.8.8: icmp_seq=1 ttl=117 time=23.4 ms" "") =
      ⟨false, some "23.4",
        some "64 bytes from 8.8.8.8: icmp_seq=1 ttl=117 time=23.4 ms"⟩ := by
  rfl

/-- C7: the constructed ping command expresses the timeout in milliseconds
on Windows and macOS and in whole seconds (at least one) on other
platforms, and the wrapping subprocess call made by `_ping_target` is
bounded by the default timeout plus one second. -/
theorem build_ping_command_timeout_units :
    ∀ (systemName target : String) (tMs : Nat),
      (pyLower systemName = "windows" →
        _build_ping_command systemName target tMs =
          ["ping", "-n", "1", "-w", toString tMs, target]) ∧
      (pyLower systemName = "darwin" →
        _build_ping_command systemName target tMs =
          ["ping", "-c", "1", "-W", toString tMs, target]) ∧
      (pyLower systemName ≠ "windows" → pyLower systemName ≠ "darwin" →
        _build_ping_command systemName target tMs =
          ["ping", "-c", "1", "-W", toString (max 1 (msRoundHalfEven tMs)), target] ∧
        1 ≤ max 1 (msRoundHalfEven tMs)) ∧
      (pingCall systemName target).timeoutMs = DEFAULT_TIMEOUT_MS + 1000 ∧
      DEFAULT_TIMEOUT_MS = 1500 := by
  intro systemName target tMs
  refine ⟨?_, ?_, ?_, rfl, rfl⟩
  · intro h
    unfold _build_ping_command
    simp [h]
  · intro h
    unfold _build_ping_command
    simp [h]
  · intro h1 h2
    unfold _build_ping_command
    constructor
    · simp [h1, h2]
    · exact Nat.le_max_left 1 _

/-- Witness for C7 at the default timeout: macOS gets 1500 milliseconds,
Linux gets round(1.5) = 2 whole seconds, and the wrapping call ceiling is
2500 milliseconds. -/
theorem build_ping_command_timeout_units_witness :
    _build_ping_command "Darwin" "1.2.3.4" 1500 =
      ["ping", "-c", "1", "-W", "1500", "1.2.3.4"] ∧
    _build_ping_command "Linux" "1.2.3.4" 1500 =
      ["ping", "-c", "1", "-W", "2", "1.2.3.4"] ∧
    (pingCall "Linux" "1.2.3.4").timeoutMs = 2500 := by
  refine ⟨?_, ?_, ?_⟩
  · exact (build_ping_command_timeout_units "Darwin" "1.2.3.4" 1500).2.1 (by decide)
  · exact ((build_ping_command_timeout_units "Linux" "1.2.3.4" 1500).2.2.1
      (by decide) (by decide)).1
  · exact (build_ping_command_timeout_units "Linux" "1.2.3.4" 1500).2.2.2.1

/-- C2: every CIDR that parses expands to exactly the host addresses of the
network (never empty, the bare address for a full-length prefix, and the
network/broadcast-excluded interior for an IPv4 prefix of at most /30), and
the documented /30 example produces exactly the two host entries with
requested equal to 2, for every world. -/
theorem expand_cidr_hosts :
    (∀ (s : String) (n : IPNetwork), ip_network_nonstrict s = some n →
      _expand_cidr s = .ok ((hostsList n).map (fun v => ipToString ⟨n.version, v⟩)) ∧
      hostsList n ≠ [] ∧
      (n.prefixLen = addrBits n.version → hostsList n = [n.netaddr]) ∧
      (n.version = 4 → n.prefixLen ≤ 30 →
        hostsList n =
          (List.range (2 ^ (32 - n.prefixLen) - 2)).map (fun i => n.netaddr + 1 + i))) ∧
    (∀ w : World, ∃ res,
      run_discovery ⟨.none, none, some "192.168.1.0/30"⟩ w = .ok res ∧
      res.summary.requested = 2 ∧
      res.results.map (fun e => e.input) = ["192.168.1.1", "192.168.1.2"]) := by
  constructor
  · intro s n h
    have hb := ip_network_version h
    refine ⟨expand_cidr_of_parse h, hostsList_ne_nil hb.1 hb.2, ?_, ?_⟩
    · intro hp
      simp [hostsList, hp]
    · intro hv hp
      have h1 : ¬ (n.prefixLen = 32) := by omega
      have h2 : ¬ (n.prefixLen + 1 = 32) := by omega
      simp [hostsList, hv, addrBits, h1, h2]
  · intro w
    have hct : compute_targets ⟨.none, none, some "192.168.1.0/30"⟩ =
        .ok ["192.168.1.1", "192.168.1.2"] := by rfl
    refine ⟨⟨⟨2, ((["192.168.1.1", "192.168.1.2"].map (_discover_target w)).filter
        (fun r => r.reachable)).length⟩,
        ["192.168.1.1", "192.168.1.2"].map (_discover_target w)⟩, ?_, rfl, ?_⟩
    · unfold run_discovery
      rw [hct]
      rfl
    · simp [discover_target_input]

/-- Witness for C2 at the documented example input. -/
theorem expand_cidr_hosts_witness :
    _expand_cidr "192.168.1.0/30" = .ok ["192.168.1.1", "192.168.1.2"] ∧
    (∃ res, run_discovery ⟨.none, none, some "192.168.1.0/30"⟩ constWorld = .ok res ∧
      res.summary.requested = 2 ∧
      res.results.map (fun e => e.input) = ["192.168.1.1", "192.168.1.2"]) := by
  constructor
  · have h := (expand_cidr_hosts.1 "192.168.1.0/30" ⟨4, 3232235776, 30⟩ (by rfl)).1
    exact h.trans (by rfl)
  · exact expand_cidr_hosts.2 constWorld

/-- C9: a CIDR whose address part still has host bits set parses without a
validation error under strict=False: the network is normalized by masking
the host bits away, and expansion returns that containing network's host
addresses. -/
theorem cidr_host_bits_normalized :
    ∀ (s addrStr plenStr : String) (a : IPAddr) (p : Nat),
      pySplitChar '/' s = [addrStr, plenStr] →
      ip_address addrStr = some a →
      parsePrefixLen (addrBits a.version) plenStr = some p →
      a.value % 2 ^ (addrBits a.version - p) ≠ 0 →
      ip_network_nonstrict s =
        some ⟨a.version, a.value - a.value % 2 ^ (addrBits a.version - p), p⟩ ∧
      _expand_cidr s =
        .ok ((hostsList ⟨a.version, a.value - a.value % 2 ^ (addrBits a.version - p), p⟩).map
          (fun v => ipToString ⟨a.version, v⟩)) := by
  intro s addrStr plenStr a p hsplit haddr hplen hhost
  have hnet : ip_network_nonstrict s =
      some ⟨a.version, a.value - a.value % 2 ^ (addrBits a.version - p), p⟩ := by
    unfold ip_network_nonstrict
    rw [hsplit]
    simp only [haddr, hplen]
  exact ⟨hnet, expand_cidr_of_parse hnet⟩

/-- Witness for C9: 192.168.1.5/30 normalizes to the 192.168.1.4/30 network
and expands to its two hosts. -/
theorem cidr_host_bits_normalized_witness :
    ip_network_nonstrict "192.168.1.5/30" = some ⟨4, 3232235780, 30⟩ ∧
    _expand_cidr "192.168.1.5/30" = .ok ["192.168.1.5", "192.168.1.6"] := by
  have h := cidr_host_bits_normalized "192.168.1.5/30" "192.168.1.5" "30"
    ⟨4, 3232235781⟩ 30 (by rfl) (by rfl) (by rfl) (by decide)
  exact ⟨h.1.trans (by rfl), h.2.trans (by rfl)⟩

/-- C5: when forward resolution fails the target short-circuits to the
fixed unresolved entry (null ip and hostname, unreachable, the specific
error string), independent of the reverse-DNS and ping oracles, and a
successful batch always probes and reports every validated target in
order. -/
theorem resolution_failure_short_circuits :
    ∀ (w : World) (t : String), _resolve_ip w t = none →
      (∀ (sys : String) (rd : String → Option String) (pg : ProcCall → ProcOutcome),
        _discover_target ⟨sys, w.dns, rd, pg⟩ t = unresolvedEntry t) ∧
      unresolvedEntry t =
        ⟨t, none, none, false, none, some "Unable to resolve hostname or IP"⟩ ∧
      (∀ (p : Payload) (w2 : World) (res : DiscoveryResult),
        run_discovery p w2 = .ok res →
        ∃ uts, compute_targets p = .ok uts ∧
          res.results = uts.map (_discover_target w2) ∧
          res.results.length = uts.length) := by
  intro w t h
  refine ⟨?_, rfl, ?_⟩
  · intro sys rd pg
    have h2 : _resolve_ip ⟨sys, w.dns, rd, pg⟩ t = none := h
    unfold _discover_target
    rw [h2]
  · intro p w2 res hrun
    obtain ⟨u, hc, hres⟩ := run_discovery_ok hrun
    refine ⟨u, hc, ?_, ?_⟩
    · rw [hres]
    · rw [hres]
      simp

/-- Witness for C5: an unresolvable target yields the unresolved entry and
does not abort a batch that also contains a resolvable target. -/
theorem resolution_failure_short_circuits_witness :
    _discover_target constWorld "bad..hostname" =
      ⟨"bad..hostname", none, none, false, none,
        some "Unable to resolve hostname or IP"⟩ ∧
    (∃ res uts,
      run_discovery ⟨.str "bad..hostname 1.1.1.1", none, none⟩ constWorld = .ok res ∧
      compute_targets ⟨.str "bad..hostname 1.1.1.1", none, none⟩ = .ok uts ∧
      res.results = uts.map (_discover_target constWorld) ∧
      res.results.length = 2) := by
  have h := resolution_failure_short_circuits constWorld "bad..hostname" (by rfl)
  constructor
  · exact (h.1 "Linux" (fun _ => none) (fun _ => ProcOutcome.timedOut)).trans h.2.1
  · have hrun : run_discovery ⟨.str "bad..hostname 1.1.1.1", none, none⟩ constWorld =
        .ok ⟨⟨2, 0⟩,
          [⟨"bad..hostname", none, none, false, none,
            some "Unable to resolve hostname or IP"⟩,
           ⟨"1.1.1.1", some "1.1.1.1", none, false, none, some "Ping timed out"⟩]⟩ := by
      rfl
    obtain ⟨uts, hc, hres, hlen⟩ := h.2.2 _ constWorld _ hrun
    exact ⟨_, uts, hrun, hc, hres, rfl⟩

/-- C4: a successful discovery reports exactly the deduplicated targets in
first-occurrence order: the entry list equals the deduplicated expansion,
its length is the requested count and never exceeds the 256-target cap,
the deduplicated list has no duplicates, and any target occurring in the
expansion (even twice) owns exactly one entry. -/
theorem run_discovery_result_invariants :
    ∀ (p : Payload) (w : World) (res : DiscoveryResult),
      run_discovery p w = .ok res →
      ∃ ts, expanded_targets p = .ok ts ∧
        res.results.map (fun e => e.input) = py_dedup ts ∧
        res.results.length = (py_dedup ts).length ∧
        res.results.length ≤ MAX_TARGETS ∧
        MAX_TARGETS = 256 ∧
        res.summary.requested = res.results.length ∧
        (py_dedup ts).Nodup ∧
        (∀ t, t ∈ ts → (res.results.map (fun e => e.input)).count t = 1) := by
  intro p w res hrun
  obtain ⟨u, hc, hres⟩ := run_discovery_ok hrun
  obtain ⟨ts, hts, hu, hne, hle⟩ := compute_targets_ok hc
  subst hu
  have hmap : res.results.map (fun e => e.input) = py_dedup ts := by
    rw [hres]
    simp only [List.map_map]
    have hpt : ∀ x ∈ py_dedup ts,
        ((fun e => e.input) ∘ _discover_target w) x = x := fun x _ =>
      discover_target_input w x
    rw [List.map_congr_left hpt]
    simp
  refine ⟨ts, hts, hmap, ?_, ?_, rfl, ?_, py_dedup_nodup ts, ?_⟩
  · rw [hres]; simp
  · rw [hres]; simpa using hle
  · rw [hres]; simp
  · intro t ht
    rw [hmap]
    exact List.count_eq_one_of_mem (py_dedup_nodup ts) (mem_py_dedup.mpr ht)

/-- Witness for C4 on a payload that names the same target twice. -/
theorem run_discovery_result_invariants_witness :
    ∃ ts, expanded_targets ⟨.str "1.1.1.1, 1.1.1.1", none, none⟩ = .ok ts ∧
      ts = ["1.1.1.1", "1.1.1.1"] ∧
      py_dedup ts = ["1.1.1.1"] ∧
      (∃ res, run_discovery ⟨.str "1.1.1.1, 1.1.1.1", none, none⟩ constWorld = .ok res ∧
        res.results.map (fun e => e.input) = py_dedup ts ∧
        res.summary.requested = res.results.length ∧
        res.results.length ≤ MAX_TARGETS ∧
        (res.results.map (fun e => e.input)).count "1.1.1.1" = 1) := by
  have hrun : run_discovery ⟨.str "1.1.1.1, 1.1.1.1", none, none⟩ constWorld =
      .ok ⟨⟨1, 0⟩,
        [⟨"1.1.1.1", some "1.1.1.1", none, false, none, some "Ping timed out"⟩]⟩ := by
    rfl
  obtain ⟨ts, hts, hmap, hlenEq, hle, hMAX, hreq, hnodup, hcount⟩ :=
    run_discovery_result_invariants _ constWorld _ hrun
  have hts2 : expanded_targets ⟨.str "1.1.1.1, 1.1.1.1", none, none⟩ =
      .ok ["1.1.1.1", "1.1.1.1"] := by rfl
  have heq : ts = ["1.1.1.1", "1.1.1.1"] := by
    have h3 := hts2.symm.trans hts
    injection h3 with h3
    exact h3.symm
  refine ⟨ts, hts, heq, ?_, _, hrun, hmap, hreq, hle, ?_⟩
  · rw [heq]
    rfl
  · exact hcount "1.1.1.1" (by rw [heq]; decide)

/-- C3: every malformed range shape (no dash, an unparsable side, mixed
families, descending bounds) makes `_expand_range` fail; every expansion
failure and both guardrail failures (empty or over-cap deduplicated target
list) turn into a field-scoped validation error of the whole request; and a
validation error is returned identically for every world, so no resolution
or probe outcome can influence it and no partial result list exists. -/
theorem validation_errors_precede_probes :
    (∀ s : String, splitDash s = none →
      _expand_range s = .error "Range must be in start-end format") ∧
    (∀ (s ls rs : String), splitDash s = some (ls, rs) →
      ip_address (pyStrip ls) = none →
      _expand_range s = .error (addrErrMsg (pyStrip ls))) ∧
    (∀ (s ls rs : String) (a : IPAddr), splitDash s = some (ls, rs) →
      ip_address (pyStrip ls) = some a →
      ip_address (pyStrip rs) = none →
      _expand_range s = .error (addrErrMsg (pyStrip rs))) ∧
    (∀ (s ls rs : String) (a b : IPAddr), splitDash s = some (ls, rs) →
      ip_address (pyStrip ls) = some a → ip_address (pyStrip rs) = some b →
      a.version ≠ b.version →
      _expand_range s = .error "Range start and end must be the same IP version") ∧
    (∀ (s ls rs : String) (a b : IPAddr), splitDash s = some (ls, rs) →
      ip_address (pyStrip ls) = some a → ip_address (pyStrip rs) = some b →
      a.version = b.version → b.value < a.value →
      _expand_range s = .error "Range end must be greater than or equal to start") ∧
    (∀ (p : Payload) (r e : String), truthyStr p.range = some r →
      _expand_range (pyStrip r) = .error e →
      expanded_targets p = .error ⟨"range", [e]⟩) ∧
    (∀ (p : Payload) (c e : String), truthyStr p.cidr = some c →
      _expand_cidr (pyStrip c) = .error e →
      (∀ r, truthyStr p.range = some r →
        ∃ out, _expand_range (pyStrip r) = .ok out) →
      expanded_targets p = .error ⟨"cidr", [e]⟩) ∧
    (∀ (p : Payload) (ts : List String), expanded_targets p = .ok ts →
      py_dedup ts = [] →
      compute_targets p =
        .error ⟨"targets", ["Provide at least one IP/hostname or range"]⟩) ∧
    (∀ (p : Payload) (ts : List String), expanded_targets p = .ok ts →
      MAX_TARGETS < (py_dedup ts).length →
      compute_targets p = .error ⟨"targets",
        ["Too many targets requested (" ++ toString (py_dedup ts).length ++
          "). Limit is " ++ toString MAX_TARGETS ++ "."]⟩) ∧
    (∀ (p : Payload) (e : VError), expanded_targets p = .error e →
      compute_targets p = .error e) ∧
    (∀ (p : Payload) (e : VError) (w : World), compute_targets p = .error e →
      run_discovery p w = .error e) := by
  refine ⟨?_, ?_, ?_, ?_, ?_, ?_, ?_, ?_, ?_, ?_, ?_⟩
  · intro s h
    unfold _expand_range
    rw [h]
  · intro s ls rs h h2
    unfold _expand_range
    rw [h]
    simp only [h2]
  · intro s ls rs a h h2 h3
    unfold _expand_range
    rw [h]
    simp only [h2, h3]
  · intro s ls rs a b h h2 h3 hne
    unfold _expand_range
    rw [h]
    simp only [h2, h3]
    simp [hne]
  · intro s ls rs a b h h2 h3 hv hlt
    unfold _expand_range
    rw [h]
    simp only [h2, h3]
    simp [hv, hlt]
  · intro p r e hr he
    unfold expanded_targets
    simp only [hr, he]
  · intro p c e hc he hrange
    unfold expanded_targets
    cases hr : truthyStr p.range with
    | none =>
      simp only [hr]
      unfold expanded_cidr_step
      simp only [hc, he]
    | some r =>
      obtain ⟨out, hout⟩ := hrange r hr
      simp only [hr, hout]
      unfold expanded_cidr_step
      simp only [hc, he]
  · intro p ts hts hded
    unfold compute_targets
    rw [hts]
    simp [hded]
  · intro p ts hts hlen
    have hMAX : MAX_TARGETS = 256 := rfl
    have hpos : 0 < (py_dedup ts).length := by omega
    have h1 : (py_dedup ts).isEmpty = false := by
      cases hl : py_dedup ts with
      | nil => rw [hl] at hpos; simp at hpos
      | cons a l => rfl
    unfold compute_targets
    rw [hts]
    simp [h1, hlen]
  · intro p e h
    unfold compute_targets
    rw [h]
  · intro p e w h
    unfold run_discovery
    rw [h]

/-- A list of 257 distinct string elements used to exercise the over-cap
guardrail. -/
def manyItems : List PyItem :=
  (List.range 257).map (fun i => PyItem.str ⟨List.replicate (i + 1) 'a'⟩)

def manyTargets : List String :=
  (List.range 257).map (fun i => ⟨List.replicate (i + 1) 'a'⟩)

theorem filterMap_strExtract_of_some (f : Nat → String) (g : Nat → PyItem)
    (h : ∀ i, strExtract (g i) = some (f i)) :
    ∀ l : List Nat, (l.map g).filterMap strExtract = l.map f := by
  intro l
  induction l with
  | nil => rfl
  | cons i rest ih => simp [List.map_cons, List.filterMap_cons, h, ih]

theorem normalize_manyItems : _normalize_targets (.list manyItems) = manyTargets := by
  rw [normalize_list_eq]
  unfold manyItems manyTargets
  apply filterMap_strExtract_of_some
  intro i
  show (if pyStrip ⟨List.replicate (i + 1) 'a'⟩ = "" then none
        else some (pyStrip ⟨List.replicate (i + 1) 'a'⟩)) =
      some (⟨List.replicate (i + 1) 'a'⟩ : String)
  rw [pyStrip_replicate_a, if_neg (replicate_a_ne_empty i)]

theorem manyTargets_nodup : manyTargets.Nodup := by
  unfold manyTargets
  exact List.Nodup.map replicate_a_injective (List.nodup_range 257)

/-- Witness for C3: a descending range, an all-blank target string, a
mixed-family range, a dashless range, and a 257-target request each produce
the corresponding validation error for the concrete world. -/
theorem validation_errors_precede_probes_witness :
    run_discovery ⟨.none, some "10.0.0.5-10.0.0.2", none⟩ constWorld =
      .error ⟨"range", ["Range end must be greater than or equal to start"]⟩ ∧
    run_discovery ⟨.str "   ", none, none⟩ constWorld =
      .error ⟨"targets", ["Provide at least one IP/hostname or range"]⟩ ∧
    _expand_range "10.0.0.1-::1" =
      .error "Range start and end must be the same IP version" ∧
    _expand_range "junk" = .error "Range must be in start-end format" ∧
    run_discovery ⟨.list manyItems, none, none⟩ constWorld =
      .error ⟨"targets", ["Too many targets requested (257). Limit is 256."]⟩ := by
  obtain ⟨c1, c2, c3, c4, c5, c6, c7, c8, c9, c10, c11⟩ :=
    validation_errors_precede_probes
  refine ⟨?_, ?_, ?_, ?_, ?_⟩
  · have hr : _expand_range (pyStrip "10.0.0.5-10.0.0.2") =
        .error "Range end must be greater than or equal to start" :=
      c5 _ "10.0.0.5" "10.0.0.2" ⟨4, 167772165⟩ ⟨4, 167772162⟩
        (by rfl) (by rfl) (by rfl) rfl (by decide)
    exact c11 _ _ constWorld (c10 _ _ (c6 _ _ _ rfl hr))
  · have hexp : expanded_targets ⟨.str "   ", none, none⟩ = .ok [] := by rfl
    exact c11 _ _ constWorld (c8 _ [] hexp (by rfl))
  · exact c4 _ "10.0.0.1" "::1" ⟨4, 167772161⟩ ⟨6, 1⟩
      (by rfl) (by rfl) (by rfl) (by decide)
  · exact c1 "junk" (by rfl)
  · have hexp : expanded_targets ⟨.list manyItems, none, none⟩ = .ok manyTargets := by
      have hbase : expanded_targets ⟨.list manyItems, none, none⟩ =
          .ok (_normalize_targets (.list manyItems)) := rfl
      rw [hbase, normalize_manyItems]
    have hded : py_dedup manyTargets = manyTargets := py_dedup_of_nodup manyTargets_nodup
    have hlen : (py_dedup manyTargets).length = 257 := by
      rw [hded]
      unfold manyTargets
      simp
    have hover : MAX_TARGETS < (py_dedup manyTargets).length := by
      rw [hlen]
      decide
    have hcomp := c9 _ _ hexp hover
    rw [hlen] at hcomp
    exact c11 _ _ constWorld hcomp

/-- C10: a list-typed targets field keeps exactly its nonblank string
elements (nulls, numbers, objects and whitespace-only strings are silently
discarded, with no effect on the request outcome for any world), and a
targets value that is neither a string nor a list contributes an empty
target list. -/
theorem normalize_targets_discards_nonstrings :
    (∀ items : List PyItem,
      _normalize_targets (.list items) = items.filterMap strExtract) ∧
    (∀ items : List PyItem,
      _normalize_targets (.list items) =
        _normalize_targets (.list (items.filter isStrItem))) ∧
    (∀ (items : List PyItem) (rng cd : Option String) (w : World),
      run_discovery ⟨.list items, rng, cd⟩ w =
        run_discovery ⟨.list (items.filter isStrItem), rng, cd⟩ w) ∧
    (∀ b : Bool, _normalize_targets (.other b) = []) ∧
    _normalize_targets .none = [] := by
  have hn : ∀ items : List PyItem,
      _normalize_targets (.list items) =
        _normalize_targets (.list (items.filter isStrItem)) := by
    intro items
    rw [normalize_list_eq, normalize_list_eq, filterMap_strExtract_filter]
  refine ⟨normalize_list_eq, hn, ?_, ?_, rfl⟩
  · intro items rng cd w
    exact run_discovery_congr w
      (compute_targets_congr (expanded_targets_congr rng cd (hn items)))
  · intro b
    cases b <;> rfl

end Discovery
